import Mathlib

/-!
# Fundraising auction engine — shallow embedding and verification

A shallow embedding of `x/fundraising/keeper/auction.go` of the
`tendermint/fundraising` module (fixed-price and batch token-sale auctions),
together with proofs settling the specification claims.

Conventions of the embedding:
* Block and calendar times are modelled as `Nat` (seconds); Go's
  `t.After(u)` is `u < t`, and `t.AddDate(0, 0, d)` is `t + d * 86400`
  (chain times are UTC, a calendar day is 86400 seconds).
* `sdk.Int` is modelled as `Int` (arbitrary precision in the SDK as well);
  a nil-able `sdk.Int` field or argument is `Option Int` with `none` for nil.
* `sdk.Dec` (18-decimal fixed point) is modelled as `Rat`; no claim below
  depends on the 18th-decimal rounding of `Quo`.
* `uint64` arithmetic carries an explicit `% 2 ^ 64` where it occurs.
* The bank module is a balance table `Addr → Denom → Int`; `SendCoins`
  fails exactly when the source balance is insufficient.
* Events emitted through the event manager are observational only and are
  not modelled.
-/

/-- Bech32 account addresses are compared as strings in the source
(`auction.GetAuctioneer().String() != msg.Auctioneer`), so an address is a
string. -/
abbrev Addr := String

/-- A coin denomination. -/
abbrev Denom := String

/-- `sdk.Coin`: a denomination together with an `sdk.Int` amount. -/
structure Coin where
  denom : Denom
  amount : Int
deriving DecidableEq, Repr

/-- The bank module's balance table. -/
structure Bank where
  balance : Addr → Denom → Int

/-- `bankKeeper.SpendableCoins(addr).AmountOf(denom)`: the spendable balance
of one denom.  The embedding identifies spendable balance with balance
(no locked coins are ever created by this module). -/
def Bank.spendable (b : Bank) (a : Addr) (d : Denom) : Int :=
  b.balance a d

/-- `bankKeeper.SendCoins(from, to, coins)` for a single coin: succeeds and
moves the amount exactly when the amount is non-negative and covered by the
source balance; fails (`none`) otherwise. -/
def Bank.send (b : Bank) (src dst : Addr) (c : Coin) : Option Bank :=
  if 0 ≤ c.amount ∧ c.amount ≤ b.balance src c.denom then
    some ⟨fun a d =>
      if d = c.denom then
        b.balance a d - (if a = src then c.amount else 0)
          + (if a = dst then c.amount else 0)
      else b.balance a d⟩
  else none

/-- The error kinds returned by the keeper
(`sdkerrors.Wrap` preserves the kind, so wrapping is dropped). -/
inductive KErr where
  | invalidRequest
  | unauthorized
  | invalidAuctionStatus
  | notFound
  | emptyAllowedBidders
  | invalidMaxBidAmount
  | insufficientFunds
deriving DecidableEq, Repr

/-- `types.AuctionStatus`. -/
inductive AuctionStatus where
  | standBy
  | started
  | vesting
  | finished
  | cancelled
deriving DecidableEq, Repr

/-- `types.AuctionType`. -/
inductive AuctionType where
  | fixedPrice
  | batch
deriving DecidableEq, Repr

/-- `types.AllowedBidder`: a bidder address with a nil-able `sdk.Int`
maximum bid amount. -/
structure AllowedBidder where
  bidder : Addr
  maxBidAmount : Option Int
deriving DecidableEq, Repr

/-- `types.VestingSchedule`: a release time with a decimal weight. -/
structure VestingSchedule where
  releaseTime : Nat
  weight : Rat
deriving DecidableEq, Repr

/-- `types.BaseAuction`: the fields shared by both auction variants. -/
structure BaseAuction where
  id : Nat
  auctionType : AuctionType
  allowedBidders : List AllowedBidder
  auctioneer : Addr
  sellingReserveAddress : Addr
  payingReserveAddress : Addr
  startPrice : Rat
  sellingCoin : Coin
  payingCoinDenom : Denom
  vestingReserveAddress : Addr
  vestingSchedules : List VestingSchedule
  remainingSellingCoin : Coin
  startTime : Nat
  endTimes : List Nat
  status : AuctionStatus
deriving DecidableEq, Repr

/-- `types.BatchAuction`: the base auction plus the batch-only fields. -/
structure BatchAuction where
  base : BaseAuction
  minBidPrice : Rat
  matchedPrice : Rat
  maxExtendedRound : Nat
  extendedRoundRate : Rat
deriving DecidableEq, Repr

/-- `types.AuctionI`, realised (as the spec's design notes direct) as a
tagged variant over the shared base. -/
inductive Auction where
  | fixedPrice (b : BaseAuction)
  | batch (ba : BatchAuction)
deriving DecidableEq, Repr

/-- The base record of either variant. -/
def Auction.base : Auction → BaseAuction
  | .fixedPrice b => b
  | .batch ba => ba.base

/-- Replace the base record, preserving the variant. -/
def Auction.withBase : Auction → BaseAuction → Auction
  | .fixedPrice _, b => .fixedPrice b
  | .batch ba, b => .batch { ba with base := b }

/-- `AuctionI.SetStatus`. -/
def Auction.setStatus (a : Auction) (s : AuctionStatus) : Auction :=
  a.withBase { a.base with status := s }

/-- `AuctionI.SetRemainingSellingCoin`. -/
def Auction.setRemainingSellingCoin (a : Auction) (c : Coin) : Auction :=
  a.withBase { a.base with remainingSellingCoin := c }

/-- `AuctionI.SetAllowedBidders`. -/
def Auction.setAllowedBidders (a : Auction) (bs : List AllowedBidder) : Auction :=
  a.withBase { a.base with allowedBidders := bs }

/-- `AuctionI.SetMaxBidAmount(bidder, amt)`: replace the cap of the entries
with the given bidder address. -/
def Auction.setMaxBidAmount (a : Auction) (bidder : Addr) (amt : Int) : Auction :=
  a.withBase { a.base with
    allowedBidders := a.base.allowedBidders.map fun ab =>
      if ab.bidder = bidder then { ab with maxBidAmount := some amt } else ab }

/-- Membership of a bidder in `AllowedBidders`, as the source's
`GetAllowedBiddersMap` lookup. -/
def BaseAuction.hasAllowedBidder (b : BaseAuction) (bidder : Addr) : Bool :=
  b.allowedBidders.any fun ab => ab.bidder = bidder

/-- The module store: the last assigned auction id and the auction table. -/
structure Store where
  lastAuctionId : Nat
  auctions : List Auction
deriving DecidableEq, Repr

/-- `GetAuction(id)`: the first stored auction with the id, when present. -/
def getAuction (st : Store) (id : Nat) : Option Auction :=
  st.auctions.find? fun a => a.base.id = id

/-- `SetAuction(a)`: store by key `a.id`, replacing an existing record or
inserting a fresh one. -/
def setAuction (st : Store) (a : Auction) : Store :=
  if st.auctions.any (fun x => x.base.id = a.base.id) then
    { st with auctions := st.auctions.map fun x =>
        if x.base.id = a.base.id then a else x }
  else
    { st with auctions := st.auctions ++ [a] }

theorem find?_map_replace (a : Auction) (l : List Auction)
    (h : l.any (fun x => x.base.id = a.base.id) = true) :
    (l.map fun x => if x.base.id = a.base.id then a else x).find?
      (fun x => decide (x.base.id = a.base.id)) = some a := by
  induction l with
  | nil => simp at h
  | cons x xs ih =>
    by_cases hx : x.base.id = a.base.id
    · simp [List.find?_cons_of_pos, hx]
    · simp only [List.any_cons, Bool.or_eq_true, decide_eq_true_eq] at h
      simp only [List.map_cons, if_neg hx]
      rw [List.find?_cons_of_neg _ (by simpa using hx)]
      exact ih (by simpa [hx] using h)

theorem find?_append_new (a : Auction) (l : List Auction)
    (h : l.any (fun x => x.base.id = a.base.id) = false) :
    (l ++ [a]).find? (fun x => decide (x.base.id = a.base.id)) = some a := by
  induction l with
  | nil => simp [List.find?_cons_of_pos]
  | cons x xs ih =>
    simp only [List.any_cons, Bool.or_eq_false_iff, decide_eq_false_iff_not] at h
    simp only [List.cons_append]
    rw [List.find?_cons_of_neg _ (by simpa using h.1)]
    exact ih (by simpa using h.2)

theorem getAuction_setAuction (st : Store) (a : Auction) :
    getAuction (setAuction st a) a.base.id = some a := by
  unfold getAuction setAuction
  by_cases h : st.auctions.any (fun x => x.base.id = a.base.id)
  · simp only [h, if_true]
    exact find?_map_replace a st.auctions h
  · simp only [h, if_false]
    exact find?_append_new a st.auctions (by simpa using h)

/-! ## Modelled collaborators

The `types` package and the other keeper files (`fee.go`, `reserve.go`,
`vesting.go`, `batch.go`, `abci.go`) are not part of the embedded source;
their members used by `auction.go` are modelled from the specification. -/

/-- Module parameters used by `auction.go`. -/
structure Params where
  auctionCreationFee : Coin
  extendedPeriod : Nat
  feeCollectorAddress : Addr
deriving DecidableEq, Repr

/-- Modelled from the spec: `types.SellingReserveAddress(id)`, a pure
deterministic derivation from the auction id, distinct across roles and
ids. -/
def sellingReserveAddress (id : Nat) : Addr :=
  "selling-reserve/" ++ toString id

/-- Modelled from the spec: `types.PayingReserveAddress(id)`. -/
def payingReserveAddress (id : Nat) : Addr :=
  "paying-reserve/" ++ toString id

/-- Modelled from the spec: `types.VestingReserveAddress(id)`. -/
def vestingReserveAddress (id : Nat) : Addr :=
  "vesting-reserve/" ++ toString id

/-- Modelled from the spec: `Keeper.ReserveCreationFee` — "Reserves the
fixed creation fee from the auctioneer"; a bank transfer from the
auctioneer to the fee collector that fails when the balance is
insufficient. -/
def reserveCreationFee (P : Params) (bank : Bank) (auctioneer : Addr) : Option Bank :=
  bank.send auctioneer P.feeCollectorAddress P.auctionCreationFee

/-- Modelled from the spec: `Keeper.ReserveSellingCoin` — "Escrows
`selling_coin` from auctioneer into the derived `selling_reserve`". -/
def reserveSellingCoin (bank : Bank) (id : Nat) (auctioneer : Addr)
    (sellingCoin : Coin) : Option Bank :=
  bank.send auctioneer (sellingReserveAddress id) sellingCoin

/-- Modelled from the spec: `BaseAuction.ShouldAuctionStarted` — "StandBy →
Started when `block_time ≥ start_time`". -/
def shouldAuctionStarted (startTime blockTime : Nat) : Bool :=
  startTime ≤ blockTime

/-- An allowed-bidder entry whose cap is non-nil, positive and at most the
selling inventory. -/
def capWithinInventory (sellingCoinAmount : Int) (ab : AllowedBidder) : Bool :=
  match ab.maxBidAmount with
  | none => false
  | some amt => decide (0 < amt) && decide (amt ≤ sellingCoinAmount)

/-- An allowed-bidder entry whose cap is non-nil and positive. -/
def capPositive (ab : AllowedBidder) : Bool :=
  match ab.maxBidAmount with
  | none => false
  | some amt => decide (0 < amt)

/-- Modelled from the spec: `types.ValidateAllowedBidders` — each entry's
`max_bid_amount` must be non-nil, positive and not exceed the selling coin
amount, else `InvalidMaxBidAmount`. -/
def validateAllowedBidders (bidders : List AllowedBidder)
    (sellingCoinAmount : Int) : Except KErr Unit :=
  if bidders.all (capWithinInventory sellingCoinAmount) then
    .ok ()
  else .error .invalidMaxBidAmount

/-! ## `auction.go`: the keeper operations -/

/-- `GetNextAuctionIdWithUpdate`: increments the last auction id (a
`uint64`, hence the `% 2 ^ 64`), persists and returns it. -/
def getNextAuctionIdWithUpdate (lastId : Nat) : Nat × Nat :=
  let id := (lastId + 1) % 2 ^ 64
  (id, id)

/-- The ids returned by `n` successive calls of
`GetNextAuctionIdWithUpdate` starting from a last id. -/
def auctionIdTrace : Nat → Nat → List Nat
  | 0, _ => []
  | n + 1, lastId =>
    let (id, lastId') := getNextAuctionIdWithUpdate lastId
    id :: auctionIdTrace n lastId'

/-- `MsgCreateFixedPriceAuction`. -/
structure MsgCreateFixedPriceAuction where
  auctioneer : Addr
  startPrice : Rat
  sellingCoin : Coin
  payingCoinDenom : Denom
  vestingSchedules : List VestingSchedule
  startTime : Nat
  endTime : Nat
deriving DecidableEq, Repr

/-- `MsgCreateBatchAuction`. -/
structure MsgCreateBatchAuction where
  auctioneer : Addr
  startPrice : Rat
  minBidPrice : Rat
  sellingCoin : Coin
  payingCoinDenom : Denom
  vestingSchedules : List VestingSchedule
  maxExtendedRound : Nat
  extendedRoundRate : Rat
  startTime : Nat
  endTime : Nat
deriving DecidableEq, Repr

/-- `types.NewBaseAuction` as called by the two create functions: the
remaining selling coin starts at the selling coin, the allowed bidder list
starts empty and the end-times list is the singleton of the message's end
time. -/
def newBaseAuction (nextId : Nat) (ty : AuctionType) (auctioneer : Addr)
    (startPrice : Rat) (sellingCoin : Coin) (payingCoinDenom : Denom)
    (vestingSchedules : List VestingSchedule) (startTime endTime : Nat) :
    BaseAuction :=
  { id := nextId
    auctionType := ty
    allowedBidders := []
    auctioneer := auctioneer
    sellingReserveAddress := sellingReserveAddress nextId
    payingReserveAddress := payingReserveAddress nextId
    startPrice := startPrice
    sellingCoin := sellingCoin
    payingCoinDenom := payingCoinDenom
    vestingReserveAddress := vestingReserveAddress nextId
    vestingSchedules := vestingSchedules
    remainingSellingCoin := sellingCoin
    startTime := startTime
    endTimes := [endTime]
    status := .standBy }

/-- `CreateFixedPriceAuction`.  The result carries the store and bank as
they stand at the return point (mutations before an error return are
applied, as in the source, where `SetAuctionId` has already hit the
context store). -/
def createFixedPriceAuction (P : Params) (st : Store) (bank : Bank)
    (blockTime : Nat) (msg : MsgCreateFixedPriceAuction) :
    Except KErr Auction × Store × Bank :=
  -- `ctx.BlockTime().After(msg.EndTime)`
  if msg.endTime < blockTime then
    (.error .invalidRequest, st, bank)
  else
    let (nextId, lastId') := getNextAuctionIdWithUpdate st.lastAuctionId
    let st := { st with lastAuctionId := lastId' }
    match reserveCreationFee P bank msg.auctioneer with
    | none => (.error .insufficientFunds, st, bank)
    | some bank =>
      match reserveSellingCoin bank nextId msg.auctioneer msg.sellingCoin with
      | none => (.error .insufficientFunds, st, bank)
      | some bank =>
        let ba := newBaseAuction nextId .fixedPrice msg.auctioneer
          msg.startPrice msg.sellingCoin msg.payingCoinDenom
          msg.vestingSchedules msg.startTime msg.endTime
        let ba :=
          if shouldAuctionStarted ba.startTime blockTime then
            { ba with status := .started }
          else ba
        let auction := Auction.fixedPrice ba
        (.ok auction, setAuction st auction, bank)

/-- `CreateBatchAuction`: identical shape; the batch auction additionally
carries `min_bid_price`, a zero initial `matched_price`,
`max_extended_round` and `extended_round_rate`. -/
def createBatchAuction (P : Params) (st : Store) (bank : Bank)
    (blockTime : Nat) (msg : MsgCreateBatchAuction) :
    Except KErr Auction × Store × Bank :=
  if msg.endTime < blockTime then
    (.error .invalidRequest, st, bank)
  else
    let (nextId, lastId') := getNextAuctionIdWithUpdate st.lastAuctionId
    let st := { st with lastAuctionId := lastId' }
    match reserveCreationFee P bank msg.auctioneer with
    | none => (.error .insufficientFunds, st, bank)
    | some bank =>
      match reserveSellingCoin bank nextId msg.auctioneer msg.sellingCoin with
      | none => (.error .insufficientFunds, st, bank)
      | some bank =>
        let b := newBaseAuction nextId .batch msg.auctioneer
          msg.startPrice msg.sellingCoin msg.payingCoinDenom
          msg.vestingSchedules msg.startTime msg.endTime
        let b :=
          if shouldAuctionStarted b.startTime blockTime then
            { b with status := .started }
          else b
        let auction := Auction.batch
          { base := b
            minBidPrice := msg.minBidPrice
            matchedPrice := 0
            maxExtendedRound := msg.maxExtendedRound
            extendedRoundRate := msg.extendedRoundRate }
        (.ok auction, setAuction st auction, bank)

/-- `MsgCancelAuction`. -/
structure MsgCancelAuction where
  auctioneer : Addr
  auctionId : Nat
deriving DecidableEq, Repr

/-- `CancelAuction`: requires the auction to exist, the caller to be the
auctioneer and the status to be StandBy; releases the whole spendable
selling-denom balance of the selling reserve to the auctioneer, zeroes the
remaining selling coin and sets the status to Cancelled. -/
def cancelAuction (st : Store) (bank : Bank) (msg : MsgCancelAuction) :
    Except KErr Unit × Store × Bank :=
  match getAuction st msg.auctionId with
  | none => (.error .notFound, st, bank)
  | some auction =>
    if auction.base.auctioneer ≠ msg.auctioneer then
      (.error .unauthorized, st, bank)
    else if auction.base.status ≠ .standBy then
      (.error .invalidAuctionStatus, st, bank)
    else
      let sellingCoinDenom := auction.base.sellingCoin.denom
      let releaseCoin : Coin :=
        ⟨sellingCoinDenom,
          bank.spendable auction.base.sellingReserveAddress sellingCoinDenom⟩
      match bank.send auction.base.sellingReserveAddress
          auction.base.auctioneer releaseCoin with
      | none => (.error .insufficientFunds, st, bank)
      | some bank =>
        let auction := auction.setRemainingSellingCoin ⟨sellingCoinDenom, 0⟩
        let auction := auction.setStatus .cancelled
        (.ok (), setAuction st auction, bank)

/-- `AddAllowedBidders`: appends the supplied bidders (no deduplication)
after existence, non-emptiness and validation checks. -/
def addAllowedBidders (st : Store) (auctionId : Nat)
    (bidders : List AllowedBidder) : Except KErr Unit × Store :=
  match getAuction st auctionId with
  | none => (.error .notFound, st)
  | some auction =>
    if bidders.length = 0 then
      (.error .emptyAllowedBidders, st)
    else
      match validateAllowedBidders bidders auction.base.sellingCoin.amount with
      | .error e => (.error e, st)
      | .ok () =>
        let allowedBidders := auction.base.allowedBidders ++ bidders
        let auction := auction.setAllowedBidders allowedBidders
        (.ok (), setAuction st auction)

/-- `UpdateAllowedBidder`: rejects a nil or non-positive maximum bid
amount, requires the bidder to exist, then replaces its cap.  (The source
performs no comparison of the new cap against the selling coin amount.) -/
def updateAllowedBidder (st : Store) (auctionId : Nat) (bidder : Addr)
    (maxBidAmount : Option Int) : Except KErr Unit × Store :=
  match getAuction st auctionId with
  | none => (.error .notFound, st)
  | some auction =>
    match maxBidAmount with
    | none => (.error .invalidMaxBidAmount, st)   -- `maxBidAmount.IsNil()`
    | some amt =>
      if ¬ 0 < amt then                           -- `!maxBidAmount.IsPositive()`
        (.error .invalidMaxBidAmount, st)
      else if ¬ auction.base.hasAllowedBidder bidder then
        (.error .notFound, st)
      else
        (.ok (), setAuction st (auction.setMaxBidAmount bidder amt))

/-- `ExtendRound`: appends `block_time + extended_period` (whole days) to
the end-times list of a batch auction; only `endTimes` changes. -/
def extendRound (P : Params) (blockTime : Nat) (ba : BatchAuction) :
    BatchAuction :=
  let extendedPeriod := blockTime + P.extendedPeriod * 86400
  { ba with base := { ba.base with endTimes := ba.base.endTimes ++ [extendedPeriod] } }

/-! ## Batch finalization (`FinishBatchAuction`)

`CalculateBatchAllocation`, `ApplyVestingSchedules` and
`GetLastMatchedBidsLen` live outside the embedded file.  The clearing
result and the stored last matched length are therefore inputs
(`CalculateBatchAllocation` is a pure computation over the bid set, which
none of the settlement steps of this function changes), and the settlement
steps are recorded as an action trace, which makes the control flow of the
function — which settlement and extension steps run, and in which order —
the object of proof. -/

/-- `keeper.MatchingInfo` (defined outside the embedded file): the fields
read by the embedded code.  Maps are association lists. -/
structure MatchingInfo where
  matchedLen : Int
  matchedPrice : Rat
  totalMatchedAmount : Int
  allocationMap : List (Addr × Int)
  refundMap : List (Addr × Int)
deriving DecidableEq, Repr

/-- The observable steps `FinishBatchAuction` can take. -/
inductive FinishAction where
  | calculateBatchAllocation
  | allocateSellingCoin
  | releaseRemainingSellingCoin
  | refundPayingCoin
  | applyVestingSchedules
  | extendRoundAction
deriving DecidableEq, Repr

/-- `FinishBatchAuction`, as the sequence of settlement/extension actions it
performs together with the resulting batch auction.  `mInfo` is the result
of `CalculateBatchAllocation` and `lastMatchedLen` the stored
`GetLastMatchedBidsLen` value.  Note the source has no early return after
the `MaxExtendedRound+1 == len(endTimes)` block: control falls through into
the extension logic below it. -/
def finishBatchAuction (P : Params) (blockTime : Nat) (mInfo : MatchingInfo)
    (lastMatchedLen : Int) (ba : BatchAuction) :
    List FinishAction × BatchAuction :=
  let acts0 : List FinishAction :=
    if ba.maxExtendedRound + 1 = ba.base.endTimes.length then
      [.calculateBatchAllocation, .allocateSellingCoin,
       .releaseRemainingSellingCoin, .refundPayingCoin,
       .applyVestingSchedules]
    else []
  -- fall-through: the extension logic below runs regardless of the block above
  if lastMatchedLen = 0 then
    (acts0 ++ [.calculateBatchAllocation, .extendRoundAction],
     extendRound P blockTime ba)
  else
    -- `diff := sdk.OneDec().Sub(currDec.Quo(lastDec))`
    let diff : Rat := 1 - (mInfo.matchedLen : Rat) / (lastMatchedLen : Rat)
    if ba.extendedRoundRate ≤ diff then   -- `diff.GTE(ba.ExtendedRoundRate)`
      (acts0 ++ [.calculateBatchAllocation, .extendRoundAction],
       extendRound P blockTime ba)
    else
      (acts0 ++ [.calculateBatchAllocation, .allocateSellingCoin,
        .releaseRemainingSellingCoin, .refundPayingCoin,
        .applyVestingSchedules], ba)

/-! ## Vesting release (`AllocateVestingPayingCoin`) -/

/-- `types.VestingQueue`: the fields read by the embedded code. -/
structure VestingQueue where
  auctionId : Nat
  payingCoin : Coin
  releaseTime : Nat
  released : Bool
deriving DecidableEq, Repr

/-- Modelled from the spec: `VestingQueue.ShouldRelease(t)` — an entry is
due when `release_time ≤ block_time` and `released = false`. -/
def VestingQueue.shouldRelease (vq : VestingQueue) (t : Nat) : Bool :=
  !vq.released && vq.releaseTime ≤ t

/-- The indexed loop body of `AllocateVestingPayingCoin`: `n` is the total
queue length and `i` the current index.  A due entry's paying coin is sent
from the vesting reserve to the auctioneer and the entry marked released; a
failed transfer is returned as an error; when the last entry of the queue
is processed as due, the status is set to Finished. -/
def allocateVestingLoop (blockTime : Nat) (reserveAddr auctioneerAddr : Addr)
    (n : Nat) :
    Nat → AuctionStatus → Bank → List VestingQueue →
      Except Unit (AuctionStatus × Bank × List VestingQueue)
  | _, status, bank, [] => .ok (status, bank, [])
  | i, status, bank, vq :: rest =>
    if vq.shouldRelease blockTime then
      match bank.send reserveAddr auctioneerAddr vq.payingCoin with
      | none => .error ()
      | some bank' =>
        let vq' := { vq with released := true }
        let status' := if i = n - 1 then AuctionStatus.finished else status
        match allocateVestingLoop blockTime reserveAddr auctioneerAddr n
            (i + 1) status' bank' rest with
        | .error e => .error e
        | .ok (s, b, l) => .ok (s, b, vq' :: l)
    else
      match allocateVestingLoop blockTime reserveAddr auctioneerAddr n
          (i + 1) status bank rest with
      | .error e => .error e
      | .ok (s, b, l) => .ok (s, b, vq :: l)

/-- `AllocateVestingPayingCoin` over an auction's vesting queue (the store
returns it keyed, hence ordered, by release time). -/
def allocateVestingPayingCoin (blockTime : Nat) (auction : Auction)
    (bank : Bank) (vqs : List VestingQueue) :
    Except Unit (AuctionStatus × Bank × List VestingQueue) :=
  allocateVestingLoop blockTime auction.base.vestingReserveAddress
    auction.base.auctioneer vqs.length 0 auction.base.status bank vqs

/-- Outcome of the per-auction end-of-block vesting sweep: either the new
status, bank and queue, or a panic aborting the block. -/
inductive SweepResult where
  | ok (status : AuctionStatus) (bank : Bank) (vqs : List VestingQueue)
  | panicked

/-- Modelled from the spec: the end-of-block sweep for one auction — "On
each block tick, for each auction in *Vesting* status, scan its vesting
queue…"; "Failure in a transfer is fatal to the block (panic upward)". -/
def vestingSweepStep (blockTime : Nat) (bank : Bank) (auction : Auction)
    (vqs : List VestingQueue) : SweepResult :=
  if auction.base.status = .vesting then
    match allocateVestingPayingCoin blockTime auction bank vqs with
    | .error _ => .panicked
    | .ok (s, b, l) => .ok s b l
  else .ok auction.base.status bank vqs

/-! ## Claim theorems -/

theorem auctionIdTrace_mem_gt : ∀ (n lastId : Nat), lastId + n < 2 ^ 64 →
    ∀ m ∈ auctionIdTrace n lastId, lastId < m
  | 0, _, _, m, hm => by simp [auctionIdTrace] at hm
  | n + 1, lastId, h, m, hm => by
    have h1 : lastId + 1 < 2 ^ 64 := by omega
    simp only [auctionIdTrace, getNextAuctionIdWithUpdate] at hm
    rw [Nat.mod_eq_of_lt h1] at hm
    rcases List.mem_cons.mp hm with rfl | hm
    · omega
    · have := auctionIdTrace_mem_gt n (lastId + 1) (by omega) m hm
      omega

/-- C9: every call of the auction-id allocator returns an id strictly
greater than every id it previously returned (stated for any run of `n`
successive calls whose ids stay below the `uint64` bound), so no auction id
is reused. -/
theorem auctionIdTrace_strictMono : ∀ (n lastId : Nat), lastId + n < 2 ^ 64 →
    (auctionIdTrace n lastId).Pairwise (· < ·)
  | 0, _, _ => by simp [auctionIdTrace]
  | n + 1, lastId, h => by
    have h1 : lastId + 1 < 2 ^ 64 := by omega
    simp only [auctionIdTrace, getNextAuctionIdWithUpdate]
    rw [Nat.mod_eq_of_lt h1]
    refine List.Pairwise.cons ?_ (auctionIdTrace_strictMono n (lastId + 1) (by omega))
    intro m hm
    exact auctionIdTrace_mem_gt n (lastId + 1) (by omega) m hm

/-- Witness for C9 at a concrete run of three calls from a fresh counter. -/
theorem auctionIdTrace_strictMono_witness :
    0 + 3 < 2 ^ 64 ∧ (auctionIdTrace 3 0).Pairwise (· < ·) :=
  ⟨by decide, auctionIdTrace_strictMono 3 0 (by decide)⟩

/-- C8: `ExtendRound` appends exactly one new end time, equal to
`block_time + extended_period` whole days, and leaves every other field of
the batch auction unchanged. -/
theorem extendRound_appends_one_endTime (P : Params) (blockTime : Nat)
    (ba : BatchAuction) :
    (extendRound P blockTime ba).base.endTimes
        = ba.base.endTimes ++ [blockTime + P.extendedPeriod * 86400] ∧
    (extendRound P blockTime ba).base.id = ba.base.id ∧
    (extendRound P blockTime ba).base.auctionType = ba.base.auctionType ∧
    (extendRound P blockTime ba).base.allowedBidders = ba.base.allowedBidders ∧
    (extendRound P blockTime ba).base.auctioneer = ba.base.auctioneer ∧
    (extendRound P blockTime ba).base.sellingReserveAddress
        = ba.base.sellingReserveAddress ∧
    (extendRound P blockTime ba).base.payingReserveAddress
        = ba.base.payingReserveAddress ∧
    (extendRound P blockTime ba).base.startPrice = ba.base.startPrice ∧
    (extendRound P blockTime ba).base.sellingCoin = ba.base.sellingCoin ∧
    (extendRound P blockTime ba).base.payingCoinDenom = ba.base.payingCoinDenom ∧
    (extendRound P blockTime ba).base.vestingReserveAddress
        = ba.base.vestingReserveAddress ∧
    (extendRound P blockTime ba).base.vestingSchedules = ba.base.vestingSchedules ∧
    (extendRound P blockTime ba).base.remainingSellingCoin
        = ba.base.remainingSellingCoin ∧
    (extendRound P blockTime ba).base.startTime = ba.base.startTime ∧
    (extendRound P blockTime ba).base.status = ba.base.status ∧
    (extendRound P blockTime ba).minBidPrice = ba.minBidPrice ∧
    (extendRound P blockTime ba).matchedPrice = ba.matchedPrice ∧
    (extendRound P blockTime ba).maxExtendedRound = ba.maxExtendedRound ∧
    (extendRound P blockTime ba).extendedRoundRate = ba.extendedRoundRate :=
  ⟨rfl, rfl, rfl, rfl, rfl, rfl, rfl, rfl, rfl, rfl, rfl, rfl, rfl, rfl, rfl,
   rfl, rfl, rfl, rfl⟩

/-- Concrete module parameters for counterexamples and witnesses. -/
def paramsEx : Params :=
  { auctionCreationFee := ⟨"fee", 10⟩
    extendedPeriod := 1
    feeCollectorAddress := "collector" }

/-- A bank giving the auctioneer `alice` enough for the creation fee and
the selling-coin escrow. -/
def bankEx : Bank :=
  ⟨fun a d =>
    if a = "alice" then (if d = "fee" then 10 else if d = "sell" then 100 else 0)
    else 0⟩

/-- A create message whose end time equals the block time used below. -/
def msgCreateEx : MsgCreateFixedPriceAuction :=
  { auctioneer := "alice"
    startPrice := 1
    sellingCoin := ⟨"sell", 100⟩
    payingCoinDenom := "pay"
    vestingSchedules := []
    startTime := 3
    endTime := 5 }

deriving instance DecidableEq for Except

/-- Counterexample to C2 as stated: with `end_time = block_time = 5` the
create operation does not fail with `InvalidRequest` (the source's check is
the strict `ctx.BlockTime().After(msg.EndTime)`); it succeeds, returning
the created auction. -/
theorem createFixedPrice_accepts_endTime_eq_blockTime :
    (createFixedPriceAuction paramsEx ⟨0, []⟩ bankEx 5 msgCreateEx).1
      ≠ Except.error KErr.invalidRequest ∧
    (createFixedPriceAuction paramsEx ⟨0, []⟩ bankEx 5 msgCreateEx).1
      = Except.ok (Auction.fixedPrice
          { id := 1
            auctionType := .fixedPrice
            allowedBidders := []
            auctioneer := "alice"
            sellingReserveAddress := sellingReserveAddress 1
            payingReserveAddress := payingReserveAddress 1
            startPrice := 1
            sellingCoin := ⟨"sell", 100⟩
            payingCoinDenom := "pay"
            vestingReserveAddress := vestingReserveAddress 1
            vestingSchedules := []
            remainingSellingCoin := ⟨"sell", 100⟩
            startTime := 3
            endTimes := [5]
            status := .started }) := by
  exact ⟨by decide, by decide⟩

/-- C2 (amended): both create operations fail with `InvalidRequest` exactly
when `block_time` is strictly after `end_time` (`end_time < block_time`);
the boundary case `end_time = block_time` is accepted. -/
theorem createAuction_invalidRequest_iff (P : Params) (st : Store)
    (bank : Bank) (blockTime : Nat) (msgF : MsgCreateFixedPriceAuction)
    (msgB : MsgCreateBatchAuction) :
    ((createFixedPriceAuction P st bank blockTime msgF).1
        = Except.error KErr.invalidRequest ↔ msgF.endTime < blockTime) ∧
    ((createBatchAuction P st bank blockTime msgB).1
        = Except.error KErr.invalidRequest ↔ msgB.endTime < blockTime) := by
  constructor
  · constructor
    · intro hc
      by_contra h
      simp only [createFixedPriceAuction, getNextAuctionIdWithUpdate,
        if_neg h] at hc
      split at hc
      · simp at hc
      · split at hc
        · simp at hc
        · simp at hc
    · intro hlt
      simp only [createFixedPriceAuction, if_pos hlt]
  · constructor
    · intro hc
      by_contra h
      simp only [createBatchAuction, getNextAuctionIdWithUpdate,
        if_neg h] at hc
      split at hc
      · simp at hc
      · split at hc
        · simp at hc
        · simp at hc
    · intro hlt
      simp only [createBatchAuction, if_pos hlt]

/-- C10: when a create operation fails past the end-time check (in the
creation-fee reservation or the selling-coin escrow), the error is returned
with the last-auction-id counter already incremented and persisted and with
no auction stored, so the drawn id is consumed and never assigned. -/
theorem createAuction_id_consumed_on_failure (P : Params) (st : Store)
    (bank : Bank) (blockTime : Nat) (msgF : MsgCreateFixedPriceAuction)
    (msgB : MsgCreateBatchAuction) :
    (∀ e : KErr, ¬ msgF.endTime < blockTime →
      (createFixedPriceAuction P st bank blockTime msgF).1 = Except.error e →
      (createFixedPriceAuction P st bank blockTime msgF).2.1.lastAuctionId
          = (st.lastAuctionId + 1) % 2 ^ 64 ∧
      (createFixedPriceAuction P st bank blockTime msgF).2.1.auctions
          = st.auctions) ∧
    (∀ e : KErr, ¬ msgB.endTime < blockTime →
      (createBatchAuction P st bank blockTime msgB).1 = Except.error e →
      (createBatchAuction P st bank blockTime msgB).2.1.lastAuctionId
          = (st.lastAuctionId + 1) % 2 ^ 64 ∧
      (createBatchAuction P st bank blockTime msgB).2.1.auctions
          = st.auctions) := by
  constructor
  · intro e h hc
    simp only [createFixedPriceAuction, getNextAuctionIdWithUpdate,
      if_neg h] at hc ⊢
    split at hc
    · exact ⟨rfl, rfl⟩
    · split at hc
      · exact ⟨rfl, rfl⟩
      · simp at hc
  · intro e h hc
    simp only [createBatchAuction, getNextAuctionIdWithUpdate,
      if_neg h] at hc ⊢
    split at hc
    · exact ⟨rfl, rfl⟩
    · split at hc
      · exact ⟨rfl, rfl⟩
      · simp at hc

/-- A bank with no balances at all: the creation-fee reservation fails. -/
def emptyBank : Bank := ⟨fun _ _ => 0⟩

/-- A batch create message used in the C10 witness. -/
def msgCreateBatchEx : MsgCreateBatchAuction :=
  { auctioneer := "alice"
    startPrice := 1
    minBidPrice := 1
    sellingCoin := ⟨"sell", 100⟩
    payingCoinDenom := "pay"
    vestingSchedules := []
    maxExtendedRound := 2
    extendedRoundRate := 1/5
    startTime := 3
    endTime := 5 }

/-- Witness for C10: with an empty bank the fee reservation fails for both
create operations, yet the counter moved from 0 to 1 and no auction was
stored. -/
theorem createAuction_id_consumed_on_failure_witness :
    ((¬ msgCreateEx.endTime < 0) ∧
      (createFixedPriceAuction paramsEx ⟨0, []⟩ emptyBank 0 msgCreateEx).1
        = Except.error KErr.insufficientFunds ∧
      (createFixedPriceAuction paramsEx ⟨0, []⟩ emptyBank 0 msgCreateEx).2.1.lastAuctionId
        = ((0 : Nat) + 1) % 2 ^ 64 ∧
      (createFixedPriceAuction paramsEx ⟨0, []⟩ emptyBank 0 msgCreateEx).2.1.auctions
        = ([] : List Auction)) ∧
    ((¬ msgCreateBatchEx.endTime < 0) ∧
      (createBatchAuction paramsEx ⟨0, []⟩ emptyBank 0 msgCreateBatchEx).1
        = Except.error KErr.insufficientFunds ∧
      (createBatchAuction paramsEx ⟨0, []⟩ emptyBank 0 msgCreateBatchEx).2.1.lastAuctionId
        = ((0 : Nat) + 1) % 2 ^ 64 ∧
      (createBatchAuction paramsEx ⟨0, []⟩ emptyBank 0 msgCreateBatchEx).2.1.auctions
        = ([] : List Auction)) :=
  ⟨⟨by decide, by decide,
    ((createAuction_id_consumed_on_failure paramsEx ⟨0, []⟩ emptyBank 0
        msgCreateEx msgCreateBatchEx).1 KErr.insufficientFunds
      (by decide) (by decide)).1,
    ((createAuction_id_consumed_on_failure paramsEx ⟨0, []⟩ emptyBank 0
        msgCreateEx msgCreateBatchEx).1 KErr.insufficientFunds
      (by decide) (by decide)).2⟩,
   ⟨by decide, by decide,
    ((createAuction_id_consumed_on_failure paramsEx ⟨0, []⟩ emptyBank 0
        msgCreateEx msgCreateBatchEx).2 KErr.insufficientFunds
      (by decide) (by decide)).1,
    ((createAuction_id_consumed_on_failure paramsEx ⟨0, []⟩ emptyBank 0
        msgCreateEx msgCreateBatchEx).2 KErr.insufficientFunds
      (by decide) (by decide)).2⟩⟩

/-- A batch auction at its final permitted round:
`max_extended_round = 0` and `end_times` already of length `1 + 0`. -/
def baFinalRound : BatchAuction :=
  { base :=
      { id := 1
        auctionType := .batch
        allowedBidders := [⟨"bob", some 50⟩]
        auctioneer := "alice"
        sellingReserveAddress := sellingReserveAddress 1
        payingReserveAddress := payingReserveAddress 1
        startPrice := 1
        sellingCoin := ⟨"sell", 100⟩
        payingCoinDenom := "pay"
        vestingReserveAddress := vestingReserveAddress 1
        vestingSchedules := []
        remainingSellingCoin := ⟨"sell", 100⟩
        startTime := 10
        endTimes := [100]
        status := .started }
    minBidPrice := 1
    matchedPrice := 0
    maxExtendedRound := 0
    extendedRoundRate := 1/5 }

/-- A clearing result with one matched bid. -/
def mInfoEx : MatchingInfo :=
  { matchedLen := 1
    matchedPrice := 1
    totalMatchedAmount := 50
    allocationMap := [("bob", 50)]
    refundMap := [] }

/-- C1 (code bug, evaluated at the failing input): for a batch auction whose
`end_times` already has length `1 + max_extended_round`, `FinishBatchAuction`
runs the unconditional finalization, but — lacking a `return` after that
block — falls through into the extension logic: with no stored last matched
length it extends the round anyway, appending an end time beyond the
permitted `1 + max_extended_round` entries right after settling the
auction. -/
theorem finishBatchAuction_falls_through_after_final_round :
    (finishBatchAuction paramsEx 100 mInfoEx 0 baFinalRound).1
      = [FinishAction.calculateBatchAllocation,
         FinishAction.allocateSellingCoin,
         FinishAction.releaseRemainingSellingCoin,
         FinishAction.refundPayingCoin,
         FinishAction.applyVestingSchedules,
         FinishAction.calculateBatchAllocation,
         FinishAction.extendRoundAction] ∧
    (finishBatchAuction paramsEx 100 mInfoEx 0 baFinalRound).2.base.endTimes
      = [100, 100 + 1 * 86400] ∧
    baFinalRound.maxExtendedRound + 1 = baFinalRound.base.endTimes.length := by
  decide

theorem withBase_base (a : Auction) (b : BaseAuction) : (a.withBase b).base = b := by
  cases a <;> rfl

/-- C4: a failed bank transfer of a due vesting tranche surfaces from
`AllocateVestingPayingCoin` as an error that the end-of-block sweep
escalates to a panic fatal to the block, not as a rejected message. -/
theorem vestingSweep_panics_on_failed_transfer (blockTime : Nat)
    (auction : Auction) (bank : Bank) (vqs : List VestingQueue)
    (hstat : auction.base.status = AuctionStatus.vesting)
    (hfail : allocateVestingPayingCoin blockTime auction bank vqs
      = Except.error ()) :
    vestingSweepStep blockTime bank auction vqs = SweepResult.panicked := by
  unfold vestingSweepStep
  rw [if_pos hstat, hfail]

/-- An auction sitting in Vesting status. -/
def aucVesting : Auction :=
  .fixedPrice
    { id := 1
      auctionType := .fixedPrice
      allowedBidders := [⟨"bob", some 50⟩]
      auctioneer := "alice"
      sellingReserveAddress := sellingReserveAddress 1
      payingReserveAddress := payingReserveAddress 1
      startPrice := 1
      sellingCoin := ⟨"sell", 100⟩
      payingCoinDenom := "pay"
      vestingReserveAddress := vestingReserveAddress 1
      vestingSchedules := [⟨10, 1⟩]
      remainingSellingCoin := ⟨"sell", 0⟩
      startTime := 1
      endTimes := [5]
      status := .vesting }

/-- A due, unreleased vesting tranche of 5 `pay`. -/
def vqDue : VestingQueue := ⟨1, ⟨"pay", 5⟩, 10, false⟩

/-- Witness for C4: with an empty vesting reserve the due tranche's
transfer fails and the sweep panics. -/
theorem vestingSweep_panics_on_failed_transfer_witness :
    aucVesting.base.status = AuctionStatus.vesting ∧
    allocateVestingPayingCoin 10 aucVesting emptyBank [vqDue]
      = Except.error () ∧
    vestingSweepStep 10 emptyBank aucVesting [vqDue]
      = SweepResult.panicked :=
  ⟨rfl, rfl,
   vestingSweep_panics_on_failed_transfer 10 aucVesting emptyBank [vqDue]
     rfl rfl⟩

/-- C7: for an existing auction, `AddAllowedBidders` rejects the empty
bidder list with `EmptyAllowedBidders` leaving the store untouched, and on
success stores the previous allowed-bidder list with the supplied bidders
appended in order, without deduplication. -/
theorem addAllowedBidders_spec (st : Store) (auctionId : Nat) (a : Auction)
    (bidders : List AllowedBidder)
    (hfound : getAuction st auctionId = some a) :
    (bidders = [] →
      addAllowedBidders st auctionId bidders
        = (Except.error KErr.emptyAllowedBidders, st)) ∧
    (∀ st', addAllowedBidders st auctionId bidders = (Except.ok (), st') →
      getAuction st' auctionId
        = some (a.setAllowedBidders (a.base.allowedBidders ++ bidders))) := by
  have hid : a.base.id = auctionId := by
    have h2 := List.find?_some hfound
    simpa using h2
  constructor
  · rintro rfl
    unfold addAllowedBidders
    rw [hfound]
    rfl
  · intro st' hok
    unfold addAllowedBidders at hok
    rw [hfound] at hok
    dsimp only at hok
    by_cases hlen : bidders.length = 0
    · rw [if_pos hlen] at hok
      simp at hok
    · rw [if_neg hlen] at hok
      cases hval : validateAllowedBidders bidders a.base.sellingCoin.amount with
      | error e => rw [hval] at hok; simp at hok
      | ok u =>
        rw [hval] at hok
        cases u
        dsimp only at hok
        have hst' : st' = setAuction st
            (a.setAllowedBidders (a.base.allowedBidders ++ bidders)) :=
          (congrArg Prod.snd hok).symm
        subst hst'
        have hbase : (a.setAllowedBidders
            (a.base.allowedBidders ++ bidders)).base.id = auctionId := by
          unfold Auction.setAllowedBidders
          rw [withBase_base]
          exact hid
        rw [← hbase]
        exact getAuction_setAuction st _

/-- A stored auction used by the C7 witness. -/
def aucAddEx : Auction :=
  .fixedPrice
    { id := 1
      auctionType := .fixedPrice
      allowedBidders := [⟨"bob", some 50⟩]
      auctioneer := "alice"
      sellingReserveAddress := sellingReserveAddress 1
      payingReserveAddress := payingReserveAddress 1
      startPrice := 1
      sellingCoin := ⟨"sell", 100⟩
      payingCoinDenom := "pay"
      vestingReserveAddress := vestingReserveAddress 1
      vestingSchedules := []
      remainingSellingCoin := ⟨"sell", 100⟩
      startTime := 3
      endTimes := [5]
      status := .started }

/-- The store holding `aucAddEx`. -/
def stAddEx : Store := ⟨1, [aucAddEx]⟩

/-- Witness for C7: on `stAddEx` the empty list is rejected with
`EmptyAllowedBidders`, and appending `carol` (cap 10) stores
`[bob ↦ 50, carol ↦ 10]` in that order. -/
theorem addAllowedBidders_spec_witness :
    getAuction stAddEx 1 = some aucAddEx ∧
    addAllowedBidders stAddEx 1 []
      = (Except.error KErr.emptyAllowedBidders, stAddEx) ∧
    getAuction (addAllowedBidders stAddEx 1 [⟨"carol", some 10⟩]).2 1
      = some (aucAddEx.setAllowedBidders
          (aucAddEx.base.allowedBidders ++ [⟨"carol", some 10⟩])) :=
  ⟨by decide,
   (addAllowedBidders_spec stAddEx 1 aucAddEx [] (by decide)).1 rfl,
   (addAllowedBidders_spec stAddEx 1 aucAddEx [⟨"carol", some 10⟩]
       (by decide)).2
     (addAllowedBidders stAddEx 1 [⟨"carol", some 10⟩]).2 (by decide)⟩

/-- Counterexample to C3 as stated: on an auction with inventory 100 and
bidder `bob` capped at 50, updating `bob` to 200 — greater than the
inventory — is not rejected with `InvalidMaxBidAmount`: it succeeds and
stores an entry whose cap exceeds `selling_coin.amount`. -/
theorem updateAllowedBidder_accepts_cap_above_inventory :
    (updateAllowedBidder stAddEx 1 "bob" (some 200)).1 = Except.ok () ∧
    getAuction (updateAllowedBidder stAddEx 1 "bob" (some 200)).2 1
      = some (aucAddEx.setMaxBidAmount "bob" 200) ∧
    (aucAddEx.setMaxBidAmount "bob" 200).base.allowedBidders
      = [⟨"bob", some 200⟩] ∧
    aucAddEx.base.sellingCoin.amount < 200 := by
  decide

theorem addAllowedBidders_ok (st : Store) (auctionId : Nat) (a : Auction)
    (bidders : List AllowedBidder) (st' : Store)
    (hfound : getAuction st auctionId = some a)
    (hok : addAllowedBidders st auctionId bidders = (Except.ok (), st')) :
    validateAllowedBidders bidders a.base.sellingCoin.amount = Except.ok () ∧
    st' = setAuction st
      (a.setAllowedBidders (a.base.allowedBidders ++ bidders)) := by
  unfold addAllowedBidders at hok
  rw [hfound] at hok
  dsimp only at hok
  by_cases hlen : bidders.length = 0
  · rw [if_pos hlen] at hok; simp at hok
  · rw [if_neg hlen] at hok
    cases hval : validateAllowedBidders bidders a.base.sellingCoin.amount with
    | error e => rw [hval] at hok; simp at hok
    | ok u =>
      cases u
      rw [hval] at hok
      dsimp only at hok
      exact ⟨rfl, (congrArg Prod.snd hok).symm⟩

theorem updateAllowedBidder_ok (st : Store) (auctionId : Nat) (a : Auction)
    (bidder : Addr) (m : Option Int) (st' : Store)
    (hfound : getAuction st auctionId = some a)
    (hok : updateAllowedBidder st auctionId bidder m = (Except.ok (), st')) :
    ∃ v, m = some v ∧ 0 < v ∧
      st' = setAuction st (a.setMaxBidAmount bidder v) := by
  unfold updateAllowedBidder at hok
  rw [hfound] at hok
  dsimp only at hok
  cases m with
  | none => simp at hok
  | some v =>
    dsimp only at hok
    by_cases hv : ¬ 0 < v
    · rw [if_pos hv] at hok; simp at hok
    · rw [if_neg hv] at hok
      push_neg at hv
      by_cases hb : a.base.hasAllowedBidder bidder = true
      · rw [if_neg (by simpa using hb)] at hok
        exact ⟨v, rfl, hv, (congrArg Prod.snd hok).symm⟩
      · rw [if_pos (by simpa using hb)] at hok
        simp at hok

theorem setAllowedBidders_id (a : Auction) (bs : List AllowedBidder) :
    (a.setAllowedBidders bs).base.id = a.base.id := by
  unfold Auction.setAllowedBidders
  rw [withBase_base]

theorem setMaxBidAmount_id (a : Auction) (bidder : Addr) (v : Int) :
    (a.setMaxBidAmount bidder v).base.id = a.base.id := by
  unfold Auction.setMaxBidAmount
  rw [withBase_base]

/-- C3 (amended): a successful `AddAllowedBidders` preserves the invariant
that every entry has a positive cap at most `selling_coin.amount`;
`UpdateAllowedBidder` rejects a nil or non-positive cap with
`InvalidMaxBidAmount` and a successful update keeps all caps positive —
but the source does not compare the updated cap with the inventory, so the
"≤ selling_coin.amount" bound survives additions, not updates. -/
theorem allowedBidders_cap_invariants (st : Store) (auctionId : Nat)
    (a : Auction) (bidders : List AllowedBidder) (bidder : Addr)
    (m : Option Int) (hfound : getAuction st auctionId = some a) :
    (∀ st', addAllowedBidders st auctionId bidders = (Except.ok (), st') →
      (∀ ab ∈ a.base.allowedBidders,
        capWithinInventory a.base.sellingCoin.amount ab = true) →
      ∀ a', getAuction st' auctionId = some a' →
        ∀ ab ∈ a'.base.allowedBidders,
          capWithinInventory a'.base.sellingCoin.amount ab = true) ∧
    ((m = none ∨ ∃ v, m = some v ∧ v ≤ 0) →
      updateAllowedBidder st auctionId bidder m
        = (Except.error KErr.invalidMaxBidAmount, st)) ∧
    (∀ st', updateAllowedBidder st auctionId bidder m = (Except.ok (), st') →
      (∀ ab ∈ a.base.allowedBidders, capPositive ab = true) →
      ∀ a', getAuction st' auctionId = some a' →
        ∀ ab ∈ a'.base.allowedBidders, capPositive ab = true) := by
  have hid : a.base.id = auctionId := by
    have h2 := List.find?_some hfound
    simpa using h2
  refine ⟨?_, ?_, ?_⟩
  · intro st' hok hinv a' hfound' ab hab
    obtain ⟨hval, rfl⟩ := addAllowedBidders_ok st auctionId a bidders st' hfound hok
    have hget : getAuction
        (setAuction st (a.setAllowedBidders (a.base.allowedBidders ++ bidders)))
          auctionId
        = some (a.setAllowedBidders (a.base.allowedBidders ++ bidders)) := by
      rw [← hid, ← setAllowedBidders_id a (a.base.allowedBidders ++ bidders)]
      exact getAuction_setAuction st _
    rw [hget] at hfound'
    have ha' : a' = a.setAllowedBidders (a.base.allowedBidders ++ bidders) :=
      (Option.some.injEq _ _ ▸ hfound').symm
    subst ha'
    have hbase : (a.setAllowedBidders
        (a.base.allowedBidders ++ bidders)).base
        = { a.base with allowedBidders := a.base.allowedBidders ++ bidders } := by
      unfold Auction.setAllowedBidders
      rw [withBase_base]
    rw [hbase] at hab ⊢
    simp only [List.mem_append] at hab
    rcases hab with hab | hab
    · exact hinv ab hab
    · unfold validateAllowedBidders at hval
      split_ifs at hval with hc
      · exact List.all_eq_true.mp hc ab hab
  · intro hm
    unfold updateAllowedBidder
    rw [hfound]
    dsimp only
    rcases hm with rfl | ⟨v, rfl, hv⟩
    · rfl
    · dsimp only
      rw [if_pos (show ¬ (0:Int) < v by omega)]
  · intro st' hok hinv a' hfound' ab hab
    obtain ⟨v, rfl, hv, rfl⟩ :=
      updateAllowedBidder_ok st auctionId a bidder m st' hfound hok
    have hget : getAuction (setAuction st (a.setMaxBidAmount bidder v)) auctionId
        = some (a.setMaxBidAmount bidder v) := by
      rw [← hid, ← setMaxBidAmount_id a bidder v]
      exact getAuction_setAuction st _
    rw [hget] at hfound'
    have ha' : a' = a.setMaxBidAmount bidder v :=
      (Option.some.injEq _ _ ▸ hfound').symm
    subst ha'
    have hbase : (a.setMaxBidAmount bidder v).base
        = { a.base with allowedBidders := a.base.allowedBidders.map fun ab =>
            if ab.bidder = bidder then { ab with maxBidAmount := some v }
            else ab } := by
      unfold Auction.setMaxBidAmount
      rw [withBase_base]
    rw [hbase] at hab
    simp only [List.mem_map] at hab
    obtain ⟨ab0, hab0, rfl⟩ := hab
    by_cases hb : ab0.bidder = bidder
    · rw [if_pos hb]
      unfold capPositive
      simpa using hv
    · rw [if_neg hb]
      exact hinv ab0 hab0

/-- Witness for the amended C3 on `stAddEx`: a nil update is rejected,
appending `carol` (cap 10) keeps all caps within the inventory, and the
successful update of `bob` to 7 keeps all caps positive. -/
theorem allowedBidders_cap_invariants_witness :
    getAuction stAddEx 1 = some aucAddEx ∧
    updateAllowedBidder stAddEx 1 "bob" none
      = (Except.error KErr.invalidMaxBidAmount, stAddEx) ∧
    (∀ ab ∈ (aucAddEx.setAllowedBidders
        (aucAddEx.base.allowedBidders
          ++ [⟨"carol", some 10⟩])).base.allowedBidders,
      capWithinInventory
        (aucAddEx.setAllowedBidders
          (aucAddEx.base.allowedBidders
            ++ [⟨"carol", some 10⟩])).base.sellingCoin.amount ab = true) ∧
    (∀ ab ∈ (aucAddEx.setMaxBidAmount "bob" 7).base.allowedBidders,
      capPositive ab = true) :=
  ⟨by decide,
   (allowedBidders_cap_invariants stAddEx 1 aucAddEx [] "bob" none
       (by decide)).2.1 (Or.inl rfl),
   (allowedBidders_cap_invariants stAddEx 1 aucAddEx [⟨"carol", some 10⟩]
       "bob" none (by decide)).1
     (addAllowedBidders stAddEx 1 [⟨"carol", some 10⟩]).2 (by decide)
     (by decide)
     (aucAddEx.setAllowedBidders
       (aucAddEx.base.allowedBidders ++ [⟨"carol", some 10⟩])) (by decide),
   (allowedBidders_cap_invariants stAddEx 1 aucAddEx [] "bob" (some 7)
       (by decide)).2.2
     (updateAllowedBidder stAddEx 1 "bob" (some 7)).2 (by decide) (by decide)
     (aucAddEx.setMaxBidAmount "bob" 7) (by decide)⟩

theorem setRemainingSellingCoin_base (a : Auction) (c : Coin) :
    (a.setRemainingSellingCoin c).base
      = { a.base with remainingSellingCoin := c } := by
  unfold Auction.setRemainingSellingCoin
  rw [withBase_base]

theorem setStatus_base (a : Auction) (s : AuctionStatus) :
    (a.setStatus s).base = { a.base with status := s } := by
  unfold Auction.setStatus
  rw [withBase_base]

/-- C5: `CancelAuction` fails with `NotFound` on an unknown id, with
`Unauthorized` when the caller is not the auctioneer, and with
`InvalidAuctionStatus` when the auction is not in StandBy; on success the
entire selling-reserve balance in the selling denom moves to the
auctioneer, the remaining selling coin is zeroed and the status becomes
Cancelled. -/
theorem cancelAuction_spec (st : Store) (bank : Bank) (msg : MsgCancelAuction) :
    (getAuction st msg.auctionId = none →
      cancelAuction st bank msg = (Except.error KErr.notFound, st, bank)) ∧
    (∀ a, getAuction st msg.auctionId = some a →
      a.base.auctioneer ≠ msg.auctioneer →
      cancelAuction st bank msg = (Except.error KErr.unauthorized, st, bank)) ∧
    (∀ a, getAuction st msg.auctionId = some a →
      a.base.auctioneer = msg.auctioneer →
      a.base.status ≠ AuctionStatus.standBy →
      cancelAuction st bank msg
        = (Except.error KErr.invalidAuctionStatus, st, bank)) ∧
    (∀ a, getAuction st msg.auctionId = some a →
      a.base.auctioneer = msg.auctioneer →
      a.base.status = AuctionStatus.standBy →
      0 ≤ bank.balance a.base.sellingReserveAddress a.base.sellingCoin.denom →
      a.base.sellingReserveAddress ≠ a.base.auctioneer →
      (cancelAuction st bank msg).1 = Except.ok () ∧
      (cancelAuction st bank msg).2.2.balance a.base.sellingReserveAddress
          a.base.sellingCoin.denom = 0 ∧
      (cancelAuction st bank msg).2.2.balance a.base.auctioneer
          a.base.sellingCoin.denom
        = bank.balance a.base.auctioneer a.base.sellingCoin.denom
          + bank.balance a.base.sellingReserveAddress
              a.base.sellingCoin.denom ∧
      getAuction (cancelAuction st bank msg).2.1 msg.auctionId
        = some ((a.setRemainingSellingCoin
            ⟨a.base.sellingCoin.denom, 0⟩).setStatus
              AuctionStatus.cancelled)) := by
  refine ⟨?_, ?_, ?_, ?_⟩
  · intro hnone
    unfold cancelAuction
    rw [hnone]
  · intro a hfound hne
    unfold cancelAuction
    rw [hfound]
    dsimp only
    rw [if_pos hne]
  · intro a hfound hauc hstat
    unfold cancelAuction
    rw [hfound]
    dsimp only
    rw [if_neg (not_not_intro hauc), if_pos hstat]
  · intro a hfound hauc hstat hpos hne
    have hid : a.base.id = msg.auctionId := by
      have h2 := List.find?_some hfound
      simpa using h2
    have hred : cancelAuction st bank msg
        = (Except.ok (),
           setAuction st ((a.setRemainingSellingCoin
             ⟨a.base.sellingCoin.denom, 0⟩).setStatus AuctionStatus.cancelled),
           ⟨fun x d =>
             if d = a.base.sellingCoin.denom then
               bank.balance x d
                 - (if x = a.base.sellingReserveAddress then
                     bank.balance a.base.sellingReserveAddress
                       a.base.sellingCoin.denom
                    else 0)
                 + (if x = a.base.auctioneer then
                     bank.balance a.base.sellingReserveAddress
                       a.base.sellingCoin.denom
                    else 0)
             else bank.balance x d⟩) := by
      unfold cancelAuction
      rw [hfound]
      dsimp only
      rw [if_neg (not_not_intro hauc), if_neg (not_not_intro hstat)]
      unfold Bank.send Bank.spendable
      rw [if_pos ⟨hpos, le_refl _⟩]
    refine ⟨by rw [hred], ?_, ?_, ?_⟩
    · rw [hred]
      dsimp only
      rw [if_pos rfl, if_pos rfl, if_neg hne]
      ring
    · rw [hred]
      dsimp only
      rw [if_pos rfl, if_neg (fun h => hne h.symm), if_pos rfl]
      ring
    · rw [hred]
      dsimp only
      have hid2 : ((a.setRemainingSellingCoin
          ⟨a.base.sellingCoin.denom, 0⟩).setStatus
            AuctionStatus.cancelled).base.id = msg.auctionId := by
        rw [setStatus_base, setRemainingSellingCoin_base]
        exact hid
      rw [← hid2]
      exact getAuction_setAuction st _

/-- A StandBy auction awaiting cancellation. -/
def aucStandBy : Auction :=
  .fixedPrice
    { id := 2
      auctionType := .fixedPrice
      allowedBidders := []
      auctioneer := "alice"
      sellingReserveAddress := sellingReserveAddress 2
      payingReserveAddress := payingReserveAddress 2
      startPrice := 1
      sellingCoin := ⟨"sell", 100⟩
      payingCoinDenom := "pay"
      vestingReserveAddress := vestingReserveAddress 2
      vestingSchedules := []
      remainingSellingCoin := ⟨"sell", 100⟩
      startTime := 50
      endTimes := [90]
      status := .standBy }

/-- The store holding `aucStandBy`. -/
def stCancelEx : Store := ⟨2, [aucStandBy]⟩

/-- A bank where the selling reserve of auction 2 holds 40 `sell` and the
auctioneer holds 7. -/
def bankCancelEx : Bank :=
  ⟨fun a d =>
    if a = sellingReserveAddress 2 ∧ d = "sell" then 40
    else if a = "alice" ∧ d = "sell" then 7
    else 0⟩

/-- The cancel message for auction 2 from its auctioneer. -/
def msgCancelEx : MsgCancelAuction := ⟨"alice", 2⟩

/-- Witness for C5: cancelling the StandBy auction 2 succeeds, drains the
selling reserve to the auctioneer, zeroes the remaining selling coin and
stores the auction as Cancelled. -/
theorem cancelAuction_spec_witness :
    getAuction stCancelEx msgCancelEx.auctionId = some aucStandBy ∧
    ((cancelAuction stCancelEx bankCancelEx msgCancelEx).1 = Except.ok () ∧
     (cancelAuction stCancelEx bankCancelEx msgCancelEx).2.2.balance
        aucStandBy.base.sellingReserveAddress
        aucStandBy.base.sellingCoin.denom = 0 ∧
     (cancelAuction stCancelEx bankCancelEx msgCancelEx).2.2.balance
        aucStandBy.base.auctioneer aucStandBy.base.sellingCoin.denom
       = bankCancelEx.balance aucStandBy.base.auctioneer
           aucStandBy.base.sellingCoin.denom
         + bankCancelEx.balance aucStandBy.base.sellingReserveAddress
             aucStandBy.base.sellingCoin.denom ∧
     getAuction (cancelAuction stCancelEx bankCancelEx msgCancelEx).2.1
        msgCancelEx.auctionId
       = some ((aucStandBy.setRemainingSellingCoin
           ⟨aucStandBy.base.sellingCoin.denom, 0⟩).setStatus
             AuctionStatus.cancelled)) :=
  ⟨by decide,
   (cancelAuction_spec stCancelEx bankCancelEx msgCancelEx).2.2.2 aucStandBy
     (by decide) (by decide) (by decide) (by decide) (by decide)⟩

/-- The effect of one pass of the vesting releaser on one queue entry: a
due entry is marked released, any other entry is unchanged. -/
def markReleased (t : Nat) (vq : VestingQueue) : VestingQueue :=
  if vq.shouldRelease t then { vq with released := true } else vq

/-- The total paying amount, in one denom, of the due entries of a vesting
queue. -/
def dueTotal (t : Nat) (d : Denom) (vqs : List VestingQueue) : Int :=
  ((vqs.filter fun vq => vq.shouldRelease t
      && decide (vq.payingCoin.denom = d)).map
    fun vq => vq.payingCoin.amount).sum

theorem dueTotal_nil (t : Nat) (d : Denom) : dueTotal t d [] = 0 := rfl

theorem dueTotal_cons (t : Nat) (d : Denom) (vq : VestingQueue)
    (vqs : List VestingQueue) :
    dueTotal t d (vq :: vqs)
      = (if vq.shouldRelease t = true ∧ d = vq.payingCoin.denom
         then vq.payingCoin.amount else 0) + dueTotal t d vqs := by
  unfold dueTotal
  by_cases h1 : vq.shouldRelease t = true <;>
    by_cases h2 : d = vq.payingCoin.denom <;>
      simp [List.filter_cons, h1, h2, eq_comm]

theorem Bank.send_balances (bank : Bank) (src dst : Addr) (c : Coin)
    (bank' : Bank) (hsd : src ≠ dst) (h : bank.send src dst c = some bank') :
    (∀ d, bank'.balance src d
      = bank.balance src d - (if d = c.denom then c.amount else 0)) ∧
    (∀ d, bank'.balance dst d
      = bank.balance dst d + (if d = c.denom then c.amount else 0)) ∧
    (∀ x d, x ≠ src → x ≠ dst → bank'.balance x d = bank.balance x d) := by
  unfold Bank.send at h
  split_ifs at h with hc
  · have hb : bank' = ⟨fun a d =>
        if d = c.denom then
          bank.balance a d - (if a = src then c.amount else 0)
            + (if a = dst then c.amount else 0)
        else bank.balance a d⟩ := by
      injection h with h2
      exact h2.symm
    subst hb
    refine ⟨?_, ?_, ?_⟩
    · intro d
      by_cases hd : d = c.denom <;> simp [hd, hsd]
    · intro d
      by_cases hd : d = c.denom <;> simp [hd, Ne.symm hsd]
    · intro x d hx1 hx2
      by_cases hd : d = c.denom <;> simp [hd, hx1, hx2]

theorem pairwise_rel_getLast {α : Type} {R : α → α → Prop} :
    ∀ {l : List α} {z : α}, l.Pairwise R → l.getLast? = some z →
      ∀ x ∈ l, x = z ∨ R x z := by
  intro l
  induction l with
  | nil => intro z _ hz; cases hz
  | cons a l2 ih =>
    intro z hp hz x hx
    cases l2 with
    | nil =>
      rw [List.getLast?_singleton, Option.some.injEq] at hz
      subst hz
      rcases List.mem_cons.mp hx with rfl | hx2
      · exact Or.inl rfl
      · cases hx2
    | cons c l3 =>
      rw [List.getLast?_cons_cons] at hz
      have hzmem : z ∈ c :: l3 := by
        have hne : (c :: l3 : List α) ≠ [] := by simp
        rw [List.getLast?_eq_getLast_of_ne_nil hne, Option.some.injEq] at hz
        rw [← hz]
        exact List.getLast_mem hne
      rcases List.mem_cons.mp hx with rfl | hx2
      · exact Or.inr ((List.pairwise_cons.mp hp).1 z hzmem)
      · exact ih (List.pairwise_cons.mp hp).2 hz x hx2

theorem allocateVestingLoop_ok (t : Nat) (res auc : Addr) (hra : res ≠ auc)
    (n : Nat) (rest : List VestingQueue) :
    ∀ (i : Nat) (status : AuctionStatus) (bank : Bank) (s : AuctionStatus)
      (b : Bank) (l : List VestingQueue),
      i + rest.length = n →
      allocateVestingLoop t res auc n i status bank rest
        = Except.ok (s, b, l) →
      l = rest.map (markReleased t) ∧
      (∀ d, b.balance res d = bank.balance res d - dueTotal t d rest) ∧
      (∀ d, b.balance auc d = bank.balance auc d + dueTotal t d rest) ∧
      (∀ x d, x ≠ res → x ≠ auc → b.balance x d = bank.balance x d) ∧
      (s = AuctionStatus.finished ↔ status = AuctionStatus.finished ∨
        ∃ last, rest.getLast? = some last ∧ last.shouldRelease t = true) := by
  induction rest with
  | nil =>
    intro i status bank s b l hin hok
    unfold allocateVestingLoop at hok
    rw [Except.ok.injEq, Prod.mk.injEq, Prod.mk.injEq] at hok
    obtain ⟨rfl, rfl, rfl⟩ := hok
    refine ⟨rfl, ?_, ?_, ?_, ?_⟩
    · intro d; rw [dueTotal_nil]; ring
    · intro d; rw [dueTotal_nil]; ring
    · intro x d _ _; rfl
    · simp
  | cons vq rest ih =>
    intro i status bank s b l hin hok
    unfold allocateVestingLoop at hok
    by_cases hdue : vq.shouldRelease t = true
    · rw [if_pos hdue] at hok
      cases hsend : bank.send res auc vq.payingCoin with
      | none => rw [hsend] at hok; cases hok
      | some bank2 =>
        rw [hsend] at hok
        dsimp only at hok
        cases hrec : allocateVestingLoop t res auc n (i + 1)
            (if i = n - 1 then AuctionStatus.finished else status) bank2
            rest with
        | error e => rw [hrec] at hok; cases hok
        | ok trip =>
          obtain ⟨s', b', l'⟩ := trip
          rw [hrec] at hok
          dsimp only at hok
          rw [Except.ok.injEq, Prod.mk.injEq, Prod.mk.injEq] at hok
          obtain ⟨rfl, rfl, rfl⟩ := hok
          obtain ⟨hl, hbres, hbauc, hother, hstatus⟩ :=
            ih (i + 1) _ bank2 s' b' l'
              (by simp only [List.length_cons] at hin; omega) hrec
          obtain ⟨hsr, hsd, hso⟩ :=
            Bank.send_balances bank res auc vq.payingCoin bank2 hra hsend
          refine ⟨?_, ?_, ?_, ?_, ?_⟩
          · rw [List.map_cons, ← hl]
            unfold markReleased
            rw [if_pos hdue]
          · intro d
            rw [hbres d, hsr d, dueTotal_cons]
            simp only [hdue, true_and]
            by_cases hd : d = vq.payingCoin.denom
            · simp only [hd, if_pos rfl]
              ring
            · simp only [if_neg hd, if_neg (fun hh => hd hh)]
              ring
          · intro d
            rw [hbauc d, hsd d, dueTotal_cons]
            simp only [hdue, true_and]
            by_cases hd : d = vq.payingCoin.denom
            · simp only [hd, if_pos rfl]
              ring
            · simp only [if_neg hd, if_neg (fun hh => hd hh)]
              ring
          · intro x d hx1 hx2
            rw [hother x d hx1 hx2, hso x d hx1 hx2]
          · cases rest with
            | nil =>
              have hi : i = n - 1 := by
                simp only [List.length_cons, List.length_nil] at hin; omega
              rw [if_pos hi] at hstatus
              constructor
              · intro _
                exact Or.inr ⟨vq, by rw [List.getLast?_singleton], hdue⟩
              · intro _
                rw [hstatus]
                exact Or.inl rfl
            | cons vq2 rest2 =>
              have hi : ¬ i = n - 1 := by
                simp only [List.length_cons] at hin; omega
              rw [if_neg hi] at hstatus
              rw [List.getLast?_cons_cons]
              exact hstatus
    · rw [if_neg hdue] at hok
      cases hrec : allocateVestingLoop t res auc n (i + 1) status bank
          rest with
      | error e => rw [hrec] at hok; cases hok
      | ok trip =>
        obtain ⟨s', b', l'⟩ := trip
        rw [hrec] at hok
        dsimp only at hok
        rw [Except.ok.injEq, Prod.mk.injEq, Prod.mk.injEq] at hok
        obtain ⟨rfl, rfl, rfl⟩ := hok
        obtain ⟨hl, hbres, hbauc, hother, hstatus⟩ :=
          ih (i + 1) status bank s' b' l'
            (by simp only [List.length_cons] at hin; omega) hrec
        refine ⟨?_, ?_, ?_, ?_, ?_⟩
        · rw [List.map_cons, ← hl]
          unfold markReleased
          rw [if_neg hdue]
        · intro d
          rw [hbres d, dueTotal_cons]
          simp [hdue]
        · intro d
          rw [hbauc d, dueTotal_cons]
          simp [hdue]
        · exact hother
        · cases rest with
          | nil =>
            constructor
            · intro hs
              rcases hstatus.mp hs with h | ⟨last, hl2, _⟩
              · exact Or.inl h
              · cases hl2
            · rintro (h | ⟨last, hl2, hd2⟩)
              · exact hstatus.mpr (Or.inl h)
              · rw [List.getLast?_singleton, Option.some.injEq] at hl2
                subst hl2
                exact absurd hd2 hdue
          | cons vq2 rest2 =>
            rw [List.getLast?_cons_cons]
            exact hstatus

/-- C6: on a block tick, for an auction in Vesting status whose queue is in
release-time order with releases so far downward-closed and not yet
complete, a sweep that completes without panic marks released exactly the
entries with `release_time ≤ block_time` and `released = false`, moves
exactly their paying amounts from the vesting reserve to the auctioneer,
and ends in Finished exactly when every entry of the queue is released. -/
theorem vestingSweep_releases_due_entries (blockTime : Nat)
    (auction : Auction) (bank : Bank) (vqs : List VestingQueue)
    (hra : auction.base.vestingReserveAddress ≠ auction.base.auctioneer)
    (hstat : auction.base.status = AuctionStatus.vesting)
    (hsorted : vqs.Pairwise fun u v => u.releaseTime ≤ v.releaseTime)
    (hclosed : vqs.Pairwise fun u v => v.released = true → u.released = true)
    (hsome : ∃ vq ∈ vqs, vq.released = false)
    (s : AuctionStatus) (b : Bank) (l : List VestingQueue)
    (hok : vestingSweepStep blockTime bank auction vqs
      = SweepResult.ok s b l) :
    l = vqs.map (markReleased blockTime) ∧
    (∀ d, b.balance auction.base.vestingReserveAddress d
      = bank.balance auction.base.vestingReserveAddress d
        - dueTotal blockTime d vqs) ∧
    (∀ d, b.balance auction.base.auctioneer d
      = bank.balance auction.base.auctioneer d + dueTotal blockTime d vqs) ∧
    (∀ x d, x ≠ auction.base.vestingReserveAddress →
      x ≠ auction.base.auctioneer → b.balance x d = bank.balance x d) ∧
    (s = AuctionStatus.finished ↔ ∀ vq ∈ l, vq.released = true) := by
  unfold vestingSweepStep at hok
  rw [if_pos hstat] at hok
  cases halloc : allocateVestingPayingCoin blockTime auction bank vqs with
  | error e => rw [halloc] at hok; cases hok
  | ok trip =>
    obtain ⟨s', b', l'⟩ := trip
    rw [halloc] at hok
    dsimp only at hok
    rw [SweepResult.ok.injEq] at hok
    obtain ⟨rfl, rfl, rfl⟩ := hok
    unfold allocateVestingPayingCoin at halloc
    obtain ⟨hl, hbres, hbauc, hother, hstatus⟩ :=
      allocateVestingLoop_ok blockTime auction.base.vestingReserveAddress
        auction.base.auctioneer hra vqs.length vqs 0 auction.base.status
        bank s' b' l' (Nat.zero_add _) halloc
    rw [hstat] at hstatus
    refine ⟨hl, hbres, hbauc, hother, ?_⟩
    rw [hstatus]
    constructor
    · rintro (h | ⟨last, hlast, hdue⟩)
      · cases h
      · intro vq hvq
        rw [hl] at hvq
        obtain ⟨vq0, hvq0, rfl⟩ := List.mem_map.mp hvq
        unfold markReleased
        by_cases hd0 : vq0.shouldRelease blockTime = true
        · rw [if_pos hd0]
        · rw [if_neg hd0]
          unfold VestingQueue.shouldRelease at hd0 hdue
          simp only [Bool.and_eq_true, Bool.not_eq_true',
            decide_eq_true_eq] at hd0 hdue
          by_cases hrel : vq0.released = true
          · exact hrel
          · exfalso
            have hle : vq0.releaseTime ≤ last.releaseTime := by
              rcases pairwise_rel_getLast hsorted hlast vq0 hvq0 with rfl | hr
              · exact le_refl _
              · exact hr
            exact hd0 ⟨by simpa using hrel, le_trans hle hdue.2⟩
    · intro hall
      obtain ⟨vq0, hvq0, hvq0f⟩ := hsome
      have hne : vqs ≠ [] := List.ne_nil_of_mem hvq0
      have hlast? : vqs.getLast? = some (vqs.getLast hne) :=
        List.getLast?_eq_getLast_of_ne_nil hne
      refine Or.inr ⟨vqs.getLast hne, hlast?, ?_⟩
      have hlastrel : (vqs.getLast hne).released = false := by
        by_contra hcon
        have hcon' : (vqs.getLast hne).released = true := by
          simpa using hcon
        rcases pairwise_rel_getLast hclosed hlast? vq0 hvq0 with rfl | hr
        · rw [hvq0f] at hcon'; cases hcon'
        · rw [hr hcon'] at hvq0f; cases hvq0f
      have hlastdue : (vqs.getLast hne).releaseTime ≤ blockTime := by
        by_contra hgt
        have hmem : markReleased blockTime (vqs.getLast hne) ∈ l' := by
          rw [hl]
          exact List.mem_map_of_mem _ (List.getLast_mem hne)
        have hrel := hall _ hmem
        unfold markReleased VestingQueue.shouldRelease at hrel
        rw [if_neg (by simp [hlastrel, hgt])] at hrel
        rw [hlastrel] at hrel
        cases hrel
      unfold VestingQueue.shouldRelease
      simp [hlastrel, hlastdue]

/-- A bank where the vesting reserve of auction 1 holds the due tranche. -/
def bankVest : Bank :=
  ⟨fun a d => if a = vestingReserveAddress 1 ∧ d = "pay" then 5 else 0⟩

/-- `bankVest` after the tranche of 5 `pay` moved to the auctioneer. -/
def bankVestAfter : Bank :=
  ⟨fun a d =>
    if d = "pay" then
      bankVest.balance a d
        - (if a = vestingReserveAddress 1 then 5 else 0)
        + (if a = "alice" then 5 else 0)
    else bankVest.balance a d⟩

/-- Witness for C6: sweeping `aucVesting` with its single due tranche at
block time 10 releases it, pays the auctioneer and finishes the auction. -/
theorem vestingSweep_releases_due_entries_witness :
    vestingSweepStep 10 bankVest aucVesting [vqDue]
      = SweepResult.ok AuctionStatus.finished bankVestAfter
          [⟨1, ⟨"pay", 5⟩, 10, true⟩] ∧
    ([(⟨1, ⟨"pay", 5⟩, 10, true⟩ : VestingQueue)]
        = [vqDue].map (markReleased 10) ∧
     (∀ d, bankVestAfter.balance aucVesting.base.vestingReserveAddress d
        = bankVest.balance aucVesting.base.vestingReserveAddress d
          - dueTotal 10 d [vqDue]) ∧
     (∀ d, bankVestAfter.balance aucVesting.base.auctioneer d
        = bankVest.balance aucVesting.base.auctioneer d
          + dueTotal 10 d [vqDue]) ∧
     (∀ x d, x ≠ aucVesting.base.vestingReserveAddress →
        x ≠ aucVesting.base.auctioneer →
        bankVestAfter.balance x d = bankVest.balance x d) ∧
     (AuctionStatus.finished = AuctionStatus.finished ↔
        ∀ vq ∈ [(⟨1, ⟨"pay", 5⟩, 10, true⟩ : VestingQueue)],
          vq.released = true)) :=
  ⟨rfl,
   vestingSweep_releases_due_entries 10 aucVesting bankVest [vqDue]
     (by decide) rfl (by simp) (by simp) ⟨vqDue, by simp, rfl⟩
     AuctionStatus.finished bankVestAfter [⟨1, ⟨"pay", 5⟩, 10, true⟩] rfl⟩
